import Mathlib

/-!
Shallow embedding of the context-propagation core of `sentry_sdk`
(`sentry_sdk/hub.py`, `sentry_sdk/crons/decorator.py`).

Modelling conventions:
* A Python `Client` object is represented by its identity, a `Nat`; the
  `Optional[Client]` slot of a stack layer is `Option Nat`.  The Hub code
  never inspects a client beyond identity comparison and `None` tests.
* A `Scope` object is represented by a record of the fields the claims
  exercise (tags, breadcrumbs, propagation context) together with a `ref`
  field standing for Python object identity: `copy.copy` produces a value
  with the same contents but a fresh `ref`, and the `!=` comparisons in
  `_ScopeManager.__exit__` (Python identity comparisons, since `Scope`
  defines no `__eq__`) compare `ref` fields.
* Fresh identities are drawn from a `next_ref` counter threaded through
  the `Hub` record.
* A Python operation that can raise is embedded as an `Option`-valued (or
  explicitly tagged) function: `none` marks exactly the inputs on which the
  source raises, before any mutation visible in the result.
* `Hub._stack` is a `List Layer` with index 0 the base layer and the top
  of stack at the end, matching the Python list (`_stack[-1]` = last,
  `append` = push, `del _stack[k:]` = `take k`).
-/

/-- Modelled from the spec: `Scope` (external collaborator, `sentry_sdk/scope.py`
is not part of the sources) is a mutable contextual bag: tags, breadcrumbs and a
propagation context.  `ref` models Python object identity. -/
structure Scope where
  ref : Nat
  tags : List (String × String)
  breadcrumbs : List String
  propagation_context : Option Nat
  deriving DecidableEq, Repr

/-- Modelled from the spec: `copy.copy` on a `Scope` yields an independent copy
(same contents) with a fresh object identity. -/
def Scope.copy (s : Scope) (freshRef : Nat) : Scope :=
  { s with ref := freshRef }

/-- Modelled from the spec: `Scope.generate_propagation_context` regenerates the
propagation context with new (fresh, hence distinct) trace identifiers. -/
def Scope.generate_propagation_context (s : Scope) (freshId : Nat) : Scope :=
  { s with propagation_context := some freshId }

/-- Modelled from the spec: `Scope()` constructs a fresh empty scope. -/
def Scope.emptyScope (freshRef : Nat) : Scope :=
  { ref := freshRef, tags := [], breadcrumbs := [], propagation_context := none }

/-- One layer of `Hub._stack`: the `(Optional[Client], Scope)` tuple. -/
structure Layer where
  client : Option Nat
  scope : Scope
  deriving DecidableEq, Repr

/-- The `Hub` record: `_stack` (base layer first, top of stack last),
`_last_event_id`, and the fresh-identity counter used to model object
creation.  The `_old_hubs` undo stack is modelled separately (`HubWorld`)
because it stores references to other `Hub` objects. -/
structure Hub where
  stack : List Layer
  last_event_id : Option String
  next_ref : Nat
  deriving DecidableEq, Repr

/-- Log entries emitted by `_ScopeManager.__exit__` (`logger.error` /
`logger.warning` calls), in source order. -/
inductive LogEntry where
  /-- The error "Scope popped too soon. Popped %s scopes too many." -/
  | popTooSoon (n : Nat)
  /-- The warning "Leaked %s scopes: %s" -/
  | leaked (n : Nat)
  /-- The error "Wrong scope found. Meant to pop %s, but popped %s." -/
  | wrongScope
  /-- The warning "init() called inside of pushed scope. ..." -/
  | initInsideScope
  deriving DecidableEq, Repr

/-- The guard constructor `_ScopeManager.__init__`: records `len(hub._stack)` at construction time
(the post-push depth, since `push_scope` appends before constructing the
manager) and the layer at the top of the stack. -/
structure ScopeManager where
  original_len : Nat
  layer : Layer
  deriving DecidableEq, Repr

/-- The guard release `_ScopeManager.__exit__` acting on the owning hub's stack.  Returns the new
stack together with the emitted log entries; `none` marks the only place the
source could raise (the `self._hub._stack[self._original_len - 1]` indexing).
The `!=` comparisons on scopes are Python identity comparisons (`ref` fields);
the comparison on clients compares the `Option Nat` identities. -/
def ScopeManager.exit (mgr : ScopeManager) (stack : List Layer) :
    Option (List Layer × List LogEntry) :=
  let current_len := stack.length
  if current_len < mgr.original_len then
    some (stack, [LogEntry.popTooSoon (mgr.original_len - current_len)])
  else
    let logs1 : List LogEntry :=
      if current_len > mgr.original_len then
        [LogEntry.leaked (current_len - mgr.original_len)]
      else []
    match stack.get? (mgr.original_len - 1) with
    | none => none
    | some layer =>
      let newStack := stack.take (mgr.original_len - 1)
      let logs2 : List LogEntry :=
        if layer.scope.ref ≠ mgr.layer.scope.ref then [LogEntry.wrongScope]
        else if layer.client ≠ mgr.layer.client then [LogEntry.initInsideScope]
        else []
      some (newStack, logs1 ++ logs2)

/-- Embedding of `Hub.push_scope` (no callback): reads the top layer (raising, i.e. `none`,
on an empty stack), copies the top scope, regenerates its propagation context
when `continue_trace` is set, appends the new layer and returns the new hub
together with the `_ScopeManager` constructed on the post-push stack. -/
def Hub.push_scope (h : Hub) (continue_trace : Bool := true) :
    Option (Hub × ScopeManager) :=
  match h.stack.getLast? with
  | none => none
  | some top =>
    let new_scope0 := top.scope.copy h.next_ref
    let new_scope :=
      cond continue_trace (new_scope0.generate_propagation_context (h.next_ref + 1))
        new_scope0
    let new_layer : Layer := { client := top.client, scope := new_scope }
    let stack' := h.stack ++ [new_layer]
    let h' : Hub := { h with stack := stack', next_ref := h.next_ref + 2 }
    some (h', { original_len := stack'.length, layer := new_layer })

/-- A well-bracketed sequence of `push_scope` operations whose scope guards are
released in strict LIFO order: `node ct inner rest` is "push (with
`continue_trace := ct`); run `inner`; release the guard; run `rest`". -/
inductive PushPopSeq where
  | nil
  | node (ct : Bool) (inner : PushPopSeq) (rest : PushPopSeq)

/-- Run a well-bracketed push/release sequence on a hub.  Where the source
would raise (push on an empty stack, guard release whose indexing fails) the
hub is left unchanged, matching the state at the raise point. -/
def Hub.runPushPopSeq : PushPopSeq → Hub → Hub
  | .nil, h => h
  | .node ct inner rest, h =>
    match h.push_scope ct with
    | none => Hub.runPushPopSeq rest h
    | some (h1, mgr) =>
      let h2 := Hub.runPushPopSeq inner h1
      let h3 :=
        match mgr.exit h2.stack with
        | none => h2
        | some (st, _) => { h2 with stack := st }
      Hub.runPushPopSeq rest h3

/-- Result of `Hub.pop_scope_unsafe`: `rv = self._stack.pop()` followed by
`assert self._stack`.  `ok` is the normal return; `assertionError` is the
raise of the assert, with the pop already performed (the hub keeps the
emptied stack); `indexError` is `pop()` on an empty list (stack unchanged). -/
inductive PopResult where
  | ok (layer : Layer) (h : Hub)
  | assertionError (h : Hub)
  | indexError (h : Hub)
  deriving DecidableEq, Repr

/-- Embedding of `Hub.pop_scope_unsafe`. -/
def Hub.pop_scope_unsafe (h : Hub) : PopResult :=
  match h.stack.getLast? with
  | none => PopResult.indexError h
  | some rv =>
    let h' : Hub := { h with stack := h.stack.dropLast }
    if h'.stack.isEmpty then PopResult.assertionError h'
    else PopResult.ok rv h'

/-- Embedding of `Hub.bind_client`: replaces the client of the top layer, keeping its scope;
`none` models the raise on an empty stack. -/
def Hub.bind_client (h : Hub) (new : Option Nat) : Option Hub :=
  match h.stack.getLast? with
  | none => none
  | some top =>
    some { h with stack := h.stack.dropLast ++ [{ top with client := new }] }

/-- Embedding of `Hub.capture_event`.  Here `event_type` is `event.get("type")`; `scope_result`
is the value the external call `top_scope.capture_event(...)` would return.
Returns `none` where the source raises (empty stack), otherwise the returned
event id and the updated hub. -/
def Hub.capture_event (h : Hub) (event_type : Option String)
    (scope_result : Option String) : Option (Option String × Hub) :=
  match h.stack.getLast? with
  | none => none
  | some top =>
    match top.client with
    | none => some (none, h)
    | some _ =>
      let is_txn := event_type == some "transaction"
      let h' : Hub :=
        if scope_result.isSome && !is_txn then { h with last_event_id := scope_result }
        else h
      some (scope_result, h')

/-- Embedding of `Hub.capture_message`.  Here `scope_result` is the value the external call
`top_scope.capture_message(...)` would return. -/
def Hub.capture_message (h : Hub) (scope_result : Option String) :
    Option (Option String × Hub) :=
  match h.stack.getLast? with
  | none => none
  | some top =>
    match top.client with
    | none => some (none, h)
    | some _ =>
      let h' : Hub :=
        if scope_result.isSome then { h with last_event_id := scope_result } else h
      some (scope_result, h')

/-- Embedding of `Hub.capture_exception`.  Here `scope_result` is the value the external call
`top_scope.capture_exception(...)` would return. -/
def Hub.capture_exception (h : Hub) (scope_result : Option String) :
    Option (Option String × Hub) :=
  match h.stack.getLast? with
  | none => none
  | some top =>
    match top.client with
    | none => some (none, h)
    | some _ =>
      let h' : Hub :=
        if scope_result.isSome then { h with last_event_id := scope_result } else h
      some (scope_result, h')

/-- Outcome of `Hub.configure_scope`: the updated hub, the scope the callback
was invoked with (`none` when the callback was not invoked or not supplied),
and the scope the returned context manager yields (`none` when a callback was
supplied instead). -/
structure ConfigureScopeOutcome where
  hub : Hub
  callback_arg : Option Scope
  yielded : Option Scope
  deriving DecidableEq, Repr

/-- Embedding of `Hub.configure_scope`: reads the top layer, regenerates the top scope's
propagation context in place when `continue_trace` is set, then either invokes
the callback with the top scope (only when a client is bound) or returns a
context manager yielding the top scope when a client is bound and a fresh
`Scope()` otherwise. -/
def Hub.configure_scope (h : Hub) (has_callback : Bool)
    (continue_trace : Bool := true) : Option ConfigureScopeOutcome :=
  match h.stack.getLast? with
  | none => none
  | some top =>
    let scope :=
      cond continue_trace (top.scope.generate_propagation_context h.next_ref)
        top.scope
    let h' : Hub :=
      cond continue_trace
        { h with stack := h.stack.dropLast ++ [{ top with scope := scope }],
                 next_ref := h.next_ref + 1 }
        h
    cond has_callback
      (some { hub := h',
              callback_arg := cond top.client.isSome (some scope) none,
              yielded := none })
      (some { hub := h',
              callback_arg := none,
              yielded := cond top.client.isSome (some scope)
                           (some (Scope.emptyScope h'.next_ref)) })

/-- Embedding of `Hub.__init__(client_or_hub)` with a `Hub` argument and no explicit scope:
the new hub's single layer shares the parent's top client reference and holds
`copy.copy` of the parent's top scope; `_last_event_id` starts as `None`.
`none` models the raise on `hub._stack[-1]` when the parent stack is empty. -/
def Hub.ofHub (parent : Hub) : Option Hub :=
  match parent.stack.getLast? with
  | none => none
  | some top =>
    some { stack := [{ client := top.client, scope := top.scope.copy parent.next_ref }],
           last_event_id := none,
           next_ref := parent.next_ref + 1 }

/-- Embedding of `HubMeta.current` as a function of the ContextLocal slot contents and
`GLOBAL_HUB`: returns the hub handed back to the caller together with the new
slot contents. -/
def HubMeta.current (slot : Option Hub) (global_hub : Hub) :
    Option (Hub × Option Hub) :=
  match slot with
  | some rv => some (rv, some rv)
  | none =>
    match Hub.ofHub global_hub with
    | none => none
    | some rv => some (rv, some rv)

/-- Embedding of `HubMeta.main`: always returns `GLOBAL_HUB`, whatever the slot holds. -/
def HubMeta.main (_slot : Option Hub) (global_hub : Hub) : Hub :=
  global_hub

/-- The ContextLocal slot together with every hub's private `_old_hubs` undo
stack, keyed by hub identity (a `Nat`).  This is the heap fragment that
`Hub.__enter__` and `Hub.__exit__` touch. -/
structure HubWorld where
  slot : Nat
  old_hubs : Nat → List Nat

/-- Embedding of `Hub.__enter__` on the hub with identity `h`: appends the currently-bound
hub to `h`'s `_old_hubs` and rebinds the slot to `h`. -/
def HubWorld.enter (h : Nat) (w : HubWorld) : HubWorld :=
  { slot := h,
    old_hubs := fun i => if i = h then w.slot :: w.old_hubs i else w.old_hubs i }

/-- Embedding of `Hub.__exit__` on the hub with identity `h`: pops `h`'s `_old_hubs` and
rebinds the slot to the popped value; `none` models the raise of `pop()` on an
empty undo stack. -/
def HubWorld.exit (h : Nat) (w : HubWorld) : Option HubWorld :=
  match w.old_hubs h with
  | [] => none
  | old :: rest =>
    some { slot := old,
           old_hubs := fun i => if i = h then rest else w.old_hubs i }

/-- Status values of `sentry_sdk.crons.consts.MonitorStatus` used by the
`monitor` decorator. -/
inductive MonitorStatus where
  | in_progress
  | error
  | ok
  deriving DecidableEq, Repr

/-- Modelled from the spec: one call to `capture_checkin` (repository code
outside the provided sources), recorded with the arguments the `monitor`
decorator passes. -/
structure CheckIn where
  monitor_slug : Option String
  check_in_id : Option String
  status : MonitorStatus
  duration : Option Nat
  deriving DecidableEq, Repr

/-- Embedding of `sentry_sdk.crons.decorator.monitor`.  The monitored body is
`body : Except ε α` (`.error` = the body raised, `.ok` = it returned);
`check_in_id` is the id the initial `capture_checkin` call returned; `now()`
is modelled by the timestamps `t0` (entry) and `t1` (body end).  Returns the
`capture_checkin` calls in order and the outcome delivered to the caller. -/
def monitor (monitor_slug : Option String) (check_in_id : String)
    (body : Except ε α) (t0 t1 : Nat) : List CheckIn × Except ε α :=
  let start_checkin : CheckIn :=
    { monitor_slug := monitor_slug, check_in_id := none,
      status := MonitorStatus.in_progress, duration := none }
  match body with
  | .error e =>
    ([start_checkin,
      { monitor_slug := monitor_slug, check_in_id := some check_in_id,
        status := MonitorStatus.error, duration := some (t1 - t0) }],
     .error e)
  | .ok a =>
    ([start_checkin,
      { monitor_slug := monitor_slug, check_in_id := some check_in_id,
        status := MonitorStatus.ok, duration := some (t1 - t0) }],
     .ok a)

/-- The operations of claim C8, with the inputs that drive them. -/
inductive HubOp where
  | push (ct : Bool)
  | guardExit (mgr : ScopeManager)
  | popUnsafe
  | bindClient (c : Option Nat)
  | captureEvent (t res : Option String)
  | captureMessage (res : Option String)
  | captureException (res : Option String)
  deriving DecidableEq, Repr

/-- Apply one operation to a hub.  Where the source raises, the hub is left in
the state it holds at the raise point (only `pop_scope_unsafe` mutates before
raising). -/
def Hub.applyOp (h : Hub) : HubOp → Hub
  | .push ct =>
    match h.push_scope ct with
    | none => h
    | some (h1, _) => h1
  | .guardExit mgr =>
    match mgr.exit h.stack with
    | none => h
    | some (st, _) => { h with stack := st }
  | .popUnsafe =>
    match h.pop_scope_unsafe with
    | .ok _ h' => h'
    | .assertionError h' => h'
    | .indexError h' => h'
  | .bindClient c => (h.bind_client c).getD h
  | .captureEvent t res =>
    match h.capture_event t res with
    | none => h
    | some (_, h') => h'
  | .captureMessage res =>
    match h.capture_message res with
    | none => h
    | some (_, h') => h'
  | .captureException res =>
    match h.capture_exception res with
    | none => h
    | some (_, h') => h'

/-- Run a sequence of operations left to right. -/
def Hub.runOps (h : Hub) : List HubOp → Hub
  | [] => h
  | op :: rest => (h.applyOp op).runOps rest

/-- The documented precondition of an operation: `pop_scope_unsafe` must leave
at least one layer (its own assertion), and a guard release must come from a
guard that `push_scope` produced (those always record a depth of at least 2).
All other operations are unrestricted. -/
def HubOp.preOK : HubOp → Hub → Bool
  | .popUnsafe, h => 2 ≤ h.stack.length
  | .guardExit mgr, _ => 2 ≤ mgr.original_len
  | _, _ => true

/-- Every operation of the sequence satisfies its precondition in the state it
runs in. -/
def Hub.opsValid (h : Hub) : List HubOp → Bool
  | [] => true
  | op :: rest => op.preOK h && (h.applyOp op).opsValid rest

/-- Holds when `s` only carries object identities and propagation ids generated before the
counter value `n`; fresh ids drawn at `n` or later are therefore distinct. -/
def Scope.freshBelow (s : Scope) (n : Nat) : Bool :=
  decide (s.ref < n) &&
    (match s.propagation_context with
     | none => true
     | some k => decide (k < n))

/-- Modelled from the spec: `Scope.set_tag` applied to the scope held by the
layer at stack index `i` (a scope mutation through that layer). -/
def setTagAt (stack : List Layer) (i : Nat) (k v : String) : List Layer :=
  match stack.get? i with
  | none => stack
  | some l =>
    stack.set i { l with scope := { l.scope with tags := (k, v) :: l.scope.tags } }

/-- Modelled from the spec: appending a breadcrumb to the scope held by the
layer at stack index `i`. -/
def addBreadcrumbAt (stack : List Layer) (i : Nat) (c : String) : List Layer :=
  match stack.get? i with
  | none => stack
  | some l =>
    stack.set i
      { l with scope := { l.scope with breadcrumbs := l.scope.breadcrumbs ++ [c] } }

/-- The `last_event_id` discipline of the three capture operations on a hub
whose top layer is `top`: `t` is the event's `"type"` entry, `res` the id the
external scope capture routine returns. -/
def CaptureSpec (h : Hub) (top : Layer) (t res : Option String) : Prop :=
  (top.client = none →
    h.capture_event t res = some (none, h) ∧
    h.capture_message res = some (none, h) ∧
    h.capture_exception res = some (none, h)) ∧
  (top.client ≠ none →
    (h.capture_event t res).map Prod.fst = some res ∧
    (h.capture_message res).map Prod.fst = some res ∧
    (h.capture_exception res).map Prod.fst = some res ∧
    (t = some "transaction" →
      (h.capture_event t res).map (fun p => p.2.last_event_id) = some h.last_event_id) ∧
    (res = none → (h.capture_event t res).map (fun p => p.2) = some h) ∧
    (t ≠ some "transaction" → res ≠ none →
      (h.capture_event t res).map (fun p => p.2.last_event_id) = some res) ∧
    (res ≠ none →
      (h.capture_message res).map (fun p => p.2.last_event_id) = some res ∧
      (h.capture_exception res).map (fun p => p.2.last_event_id) = some res) ∧
    (res = none →
      (h.capture_message res).map (fun p => p.2) = some h ∧
      (h.capture_exception res).map (fun p => p.2) = some h))

/-- What `HubMeta.current` and `HubMeta.main` return, as a function of the
slot contents and the global hub `g` with top layer `top`. -/
def CurrentHubSpec (slot : Option Hub) (g : Hub) (top : Layer) : Prop :=
  (∀ hb, slot = some hb → HubMeta.current slot g = some (hb, slot)) ∧
  (slot = none →
    HubMeta.current slot g =
      some ({ stack := [{ client := top.client, scope := top.scope.copy g.next_ref }],
              last_event_id := none, next_ref := g.next_ref + 1 },
            some { stack := [{ client := top.client, scope := top.scope.copy g.next_ref }],
                   last_event_id := none, next_ref := g.next_ref + 1 }) ∧
    (top.scope.copy g.next_ref).tags = top.scope.tags ∧
    (top.scope.copy g.next_ref).breadcrumbs = top.scope.breadcrumbs ∧
    (top.scope.copy g.next_ref).propagation_context = top.scope.propagation_context) ∧
  HubMeta.main slot g = g

/-- What `push_scope` produces on a hub with top layer `top`: one appended
layer carrying the top client and an independent clone of the top scope, with
the propagation-context policy selected by `ct`, and mutation isolation
between the child layer (index `h.stack.length`) and its parent layer (index
`h.stack.length - 1`). -/
def PushScopeSpec (h : Hub) (top : Layer) (ct : Bool) (h1 : Hub)
    (mgr : ScopeManager) : Prop :=
  h1.stack = h.stack ++ [mgr.layer] ∧
  mgr.layer.client = top.client ∧
  mgr.layer.scope.tags = top.scope.tags ∧
  mgr.layer.scope.breadcrumbs = top.scope.breadcrumbs ∧
  mgr.layer.scope.ref ≠ top.scope.ref ∧
  (ct = true → mgr.layer.scope.propagation_context ≠ top.scope.propagation_context) ∧
  (ct = false → mgr.layer.scope.propagation_context = top.scope.propagation_context) ∧
  (∀ k v, (setTagAt h1.stack h.stack.length k v).get? (h.stack.length - 1) =
    h1.stack.get? (h.stack.length - 1)) ∧
  (∀ k v, (setTagAt h1.stack (h.stack.length - 1) k v).get? h.stack.length =
    h1.stack.get? h.stack.length) ∧
  (∀ c, (addBreadcrumbAt h1.stack h.stack.length c).get? (h.stack.length - 1) =
    h1.stack.get? (h.stack.length - 1)) ∧
  (∀ c, (addBreadcrumbAt h1.stack (h.stack.length - 1) c).get? h.stack.length =
    h1.stack.get? h.stack.length)

/-- The callback/yield behaviour of `configure_scope` on a hub with top layer
`top`: the callback only ever runs when a client is bound and then receives
the hub's current top scope; with no callback and no client, the context
manager yields a fresh empty scope that is identical to no scope on the
stack. -/
def ConfigureScopeSpec (h : Hub) (top : Layer) (ct : Bool) : Prop :=
  (∀ out, h.configure_scope true ct = some out →
    (top.client ≠ none →
      ∃ tl, out.hub.stack.getLast? = some tl ∧ out.callback_arg = some tl.scope) ∧
    (top.client = none → out.callback_arg = none)) ∧
  (∀ out, h.configure_scope false ct = some out → top.client = none →
    ∃ s, out.yielded = some s ∧ s.tags = [] ∧ s.breadcrumbs = [] ∧
      s.propagation_context = none ∧
      ∀ l ∈ out.hub.stack, s.ref ≠ l.scope.ref) ∧
  (h.configure_scope true ct).isSome = true ∧
  (h.configure_scope false ct).isSome = true

/-- Concrete fixtures used to evaluate the development on closed inputs. -/
def scope0 : Scope :=
  { ref := 0, tags := [], breadcrumbs := [], propagation_context := none }

def layer0 : Layer := { client := none, scope := scope0 }

def hub0 : Hub := { stack := [layer0], last_event_id := none, next_ref := 1 }

def layerC : Layer := { client := some 7, scope := scope0 }

def hubC : Hub := { stack := [layerC], last_event_id := none, next_ref := 1 }

def hubD : Hub :=
  { stack := [{ client := some 7, scope := scope0.copy 1 }],
    last_event_id := none, next_ref := 2 }

def world0 : HubWorld := { slot := 0, old_hubs := fun _ => [] }

/-- The scope that `hub0.push_scope true` clones from `scope0`. -/
def scopeP : Scope :=
  { ref := 1, tags := [], breadcrumbs := [], propagation_context := some 2 }

def layerP : Layer := { client := none, scope := scopeP }

/-- The hub that `hub0.push_scope true` produces. -/
def hubP : Hub := { stack := [layer0, layerP], last_event_id := none, next_ref := 3 }

/-- The guard that `hub0.push_scope true` produces. -/
def mgrP : ScopeManager := { original_len := 2, layer := layerP }

/-- Releasing the guard returned by `push_scope`, with the stack exactly as the
push left it, restores the pre-push stack and logs nothing. -/
theorem exit_of_push_restores (h : Hub) (ct : Bool) (h1 : Hub) (mgr : ScopeManager)
    (hp : h.push_scope ct = some (h1, mgr)) :
    mgr.exit h1.stack = some (h.stack, []) := by
  unfold Hub.push_scope at hp
  cases htop : h.stack.getLast? with
  | none => rw [htop] at hp; exact absurd hp (by simp)
  | some top =>
    rw [htop] at hp
    simp only [Option.some.injEq, Prod.mk.injEq] at hp
    obtain ⟨hh1, hmgr⟩ := hp
    subst hh1
    subst hmgr
    unfold ScopeManager.exit
    simp [List.getElem?_concat_length, List.take_left]

/-- Lemma: `push_scope` appends the recorded layer and records the post-push depth;
`_last_event_id` is untouched. -/
theorem push_scope_stack (h : Hub) (ct : Bool) (h1 : Hub) (mgr : ScopeManager)
    (hp : h.push_scope ct = some (h1, mgr)) :
    h1.stack = h.stack ++ [mgr.layer] ∧ mgr.original_len = h.stack.length + 1 ∧
    h1.last_event_id = h.last_event_id := by
  unfold Hub.push_scope at hp
  cases htop : h.stack.getLast? with
  | none => rw [htop] at hp; exact absurd hp (by simp)
  | some top =>
    rw [htop] at hp
    simp only [Option.some.injEq, Prod.mk.injEq] at hp
    obtain ⟨hh1, hmgr⟩ := hp
    subst hh1
    subst hmgr
    simp

/-- C1: for every hub with a non-empty stack and every well-bracketed sequence
of `push_scope` operations whose guards are released in strict LIFO order, the
stack after the last release is exactly the stack before the sequence: same
depth, and every pre-existing layer still present, unchanged, at its original
index. -/
theorem push_pop_lifo_restores_stack (p : PushPopSeq) (h : Hub)
    (hne : h.stack ≠ []) : (Hub.runPushPopSeq p h).stack = h.stack := by
  induction p generalizing h with
  | nil => rfl
  | node ct inner rest ih_inner ih_rest =>
    unfold Hub.runPushPopSeq
    cases hp : h.push_scope ct with
    | none => exact ih_rest h hne
    | some pr =>
      obtain ⟨h1, mgr⟩ := pr
      obtain ⟨hstk, -, -⟩ := push_scope_stack h ct h1 mgr hp
      have hne1 : h1.stack ≠ [] := by simp [hstk]
      have h2eq : (Hub.runPushPopSeq inner h1).stack = h1.stack := ih_inner h1 hne1
      have hexit := exit_of_push_restores h ct h1 mgr hp
      dsimp only
      rw [h2eq, hexit]
      have hfin := ih_rest { Hub.runPushPopSeq inner h1 with stack := h.stack }
        (by simpa using hne)
      simpa using hfin

theorem push_pop_lifo_restores_stack_witness :
    hub0.stack ≠ [] ∧
    (Hub.runPushPopSeq
      (PushPopSeq.node true (PushPopSeq.node false PushPopSeq.nil PushPopSeq.nil)
        PushPopSeq.nil) hub0).stack = hub0.stack :=
  ⟨by decide,
   push_pop_lifo_restores_stack
     (PushPopSeq.node true (PushPopSeq.node false PushPopSeq.nil PushPopSeq.nil)
       PushPopSeq.nil) hub0 (by decide)⟩

/-- C3: when the stack is already shallower than the depth the guard recorded,
releasing the guard logs the "popped too soon" error carrying the shortfall
and returns with the stack untouched — and, being a plain return value, it
reports the mismatch without throwing. -/
theorem scope_guard_pop_too_soon (mgr : ScopeManager) (stack : List Layer)
    (hlt : stack.length < mgr.original_len) :
    mgr.exit stack =
      some (stack, [LogEntry.popTooSoon (mgr.original_len - stack.length)]) := by
  unfold ScopeManager.exit
  simp [hlt]

theorem scope_guard_pop_too_soon_witness :
    [layer0].length < (ScopeManager.mk 2 layer0).original_len ∧
    (ScopeManager.mk 2 layer0).exit [layer0] =
      some ([layer0], [LogEntry.popTooSoon 1]) :=
  ⟨by decide, scope_guard_pop_too_soon (ScopeManager.mk 2 layer0) [layer0] (by decide)⟩

/-- C4: releasing a guard that `push_scope` produced terminates normally on
every stack state of the owning hub — the diagnostic protocol never raises,
it only returns the new stack and log entries. -/
theorem scope_guard_release_never_raises (h : Hub) (ct : Bool) (h1 : Hub)
    (mgr : ScopeManager) (hp : h.push_scope ct = some (h1, mgr))
    (stack : List Layer) : (mgr.exit stack).isSome = true := by
  obtain ⟨-, hlen, -⟩ := push_scope_stack h ct h1 mgr hp
  unfold ScopeManager.exit
  by_cases hlt : stack.length < mgr.original_len
  · simp [hlt]
  · push_neg at hlt
    cases hg : stack.get? (mgr.original_len - 1) with
    | none =>
      rw [List.get?_eq_none] at hg
      omega
    | some layer =>
      simp [Nat.not_lt.mpr hlt, hg]

theorem scope_guard_release_never_raises_witness :
    hub0.push_scope true = some (hubP, mgrP) ∧ (mgrP.exit []).isSome = true :=
  ⟨by decide,
   scope_guard_release_never_raises hub0 true hubP mgrP (by decide) []⟩

/-- C2: `last_event_id` is overwritten exactly by a capture that yields an id
for a non-transaction event; `capture_event` of a `"transaction"` event never
updates it even when it returns an id; with no client bound on the top layer
every capture returns no id and leaves the hub (hence `last_event_id`)
unchanged. -/
theorem capture_updates_last_event_id (h : Hub) (top : Layer)
    (hl : h.stack.getLast? = some top) (t res : Option String) :
    CaptureSpec h top t res := by
  unfold CaptureSpec Hub.capture_event Hub.capture_message Hub.capture_exception
  rw [hl]
  cases hc : top.client with
  | none => simp [hc]
  | some c =>
    refine ⟨by simp [hc], fun _ => ?_⟩
    by_cases ht : t = some "transaction"
    · subst ht
      cases res with
      | none => simp [hc]
      | some r => simp [hc]
    · have hbe : (t == some "transaction") = false := by
        simpa [beq_iff_eq] using ht
      cases res with
      | none => simp [hc, hbe, ht]
      | some r => simp [hc, hbe, ht]

theorem capture_updates_last_event_id_witness :
    hubC.stack.getLast? = some layerC ∧
    CaptureSpec hubC layerC (some "transaction") (some "e1") :=
  ⟨rfl, capture_updates_last_event_id hubC layerC rfl (some "transaction") (some "e1")⟩

/-- Lemma: `Hub.__exit__` after a matching `Hub.__enter__`, tolerating any
intermediate mutation of the slot as long as the undo stacks were preserved:
the pop succeeds and yields the pre-enter slot value. -/
theorem hubworld_exit_of_enter (h : Nat) (w w' : HubWorld)
    (hagree : w'.old_hubs = (HubWorld.enter h w).old_hubs) :
    HubWorld.exit h w' =
      some { slot := w.slot,
             old_hubs := fun i => if i = h then w.old_hubs h else w'.old_hubs i } := by
  have hh : w'.old_hubs h = w.slot :: w.old_hubs h := by
    rw [hagree]; simp [HubWorld.enter]
  unfold HubWorld.exit
  rw [hh]

/-- After the pop of `hubworld_exit_of_enter`, the undo stacks are restored to
their pre-enter values. -/
theorem hubworld_exit_restores_old_hubs (h : Nat) (w w' : HubWorld)
    (hagree : w'.old_hubs = (HubWorld.enter h w).old_hubs) :
    (fun i => if i = h then w.old_hubs h else w'.old_hubs i) = w.old_hubs := by
  funext i
  by_cases hi : i = h
  · simp [hi]
  · simp [hi, hagree, HubWorld.enter]

/-- C5: activating a hub rebinds the slot to it and pushes the previously
current hub onto its private undo stack; deactivating pops the undo stack and
restores the popped hub as current.  Nesting two activations (any identities,
including the same hub twice) and releasing both restores the original current
hub and all undo stacks exactly, for arbitrary intermediate operations
`f`, `g`, `k` that leave the undo stacks alone. -/
theorem hub_activation_nesting_restores_current (w : HubWorld) (h1 h2 : Nat)
    (f g k : HubWorld → HubWorld)
    (hf : ∀ x, (f x).old_hubs = x.old_hubs)
    (hg : ∀ x, (g x).old_hubs = x.old_hubs)
    (hk : ∀ x, (k x).old_hubs = x.old_hubs) :
    (HubWorld.enter h1 w).slot = h1 ∧
    (HubWorld.enter h1 w).old_hubs h1 = w.slot :: w.old_hubs h1 ∧
    ∃ v1 v2,
      HubWorld.exit h2 (g (HubWorld.enter h2 (f (HubWorld.enter h1 w)))) = some v1 ∧
      v1.slot = (f (HubWorld.enter h1 w)).slot ∧
      HubWorld.exit h1 (k v1) = some v2 ∧
      v2.slot = w.slot ∧
      v2.old_hubs = w.old_hubs := by
  refine ⟨rfl, by simp [HubWorld.enter], ?_⟩
  have hb : (g (HubWorld.enter h2 (f (HubWorld.enter h1 w)))).old_hubs =
      (HubWorld.enter h2 (f (HubWorld.enter h1 w))).old_hubs := hg _
  obtain ⟨v1, e1, hs1, ho1⟩ :
      ∃ v1, HubWorld.exit h2 (g (HubWorld.enter h2 (f (HubWorld.enter h1 w)))) = some v1 ∧
        v1.slot = (f (HubWorld.enter h1 w)).slot ∧
        v1.old_hubs = (f (HubWorld.enter h1 w)).old_hubs :=
    ⟨_, hubworld_exit_of_enter h2 (f (HubWorld.enter h1 w)) _ hb, rfl,
      hubworld_exit_restores_old_hubs h2 (f (HubWorld.enter h1 w)) _ hb⟩
  have hkv : (k v1).old_hubs = (HubWorld.enter h1 w).old_hubs := by
    rw [hk, ho1, hf]
  obtain ⟨v2, e2, hs2, ho2⟩ :
      ∃ v2, HubWorld.exit h1 (k v1) = some v2 ∧
        v2.slot = w.slot ∧ v2.old_hubs = w.old_hubs :=
    ⟨_, hubworld_exit_of_enter h1 w _ hkv, rfl,
      hubworld_exit_restores_old_hubs h1 w _ hkv⟩
  exact ⟨v1, v2, e1, hs1, e2, hs2, ho2⟩

theorem hub_activation_nesting_restores_current_witness :
    (HubWorld.exit 5 (HubWorld.enter 5 (HubWorld.enter 5 world0))).bind
      (fun v1 => (HubWorld.exit 5 v1).map HubWorld.slot) = some 0 := by
  obtain ⟨-, -, v1, v2, e1, -, e2, hs, -⟩ :=
    hub_activation_nesting_restores_current world0 5 5 id id id
      (fun _ => rfl) (fun _ => rfl) (fun _ => rfl)
  simp only [id_eq] at e1 e2
  rw [e1]
  simp only [Option.some_bind, e2, Option.map_some']
  rw [hs]
  rfl

/-- C6: `HubMeta.current` returns the hub bound to the context slot when one
is bound; on an empty slot it constructs `Hub(GLOBAL_HUB)` — a one-layer hub
sharing the global hub's top client reference and holding a field-for-field
copy of its top scope — binds it to the slot and returns it.  `HubMeta.main`
returns the global hub regardless of the slot. -/
theorem hub_current_and_main (slot : Option Hub) (g : Hub) (top : Layer)
    (hg : g.stack.getLast? = some top) : CurrentHubSpec slot g top := by
  unfold CurrentHubSpec HubMeta.current HubMeta.main Hub.ofHub
  rw [hg]
  cases slot with
  | some hb => simp
  | none => simp [Scope.copy]

theorem hub_current_and_main_witness :
    HubMeta.current none hubC = some (hubD, some hubD) ∧
    HubMeta.main none hubC = hubC := by
  obtain ⟨-, h2, h3⟩ := hub_current_and_main none hubC layerC rfl
  exact ⟨(h2 rfl).1, h3⟩

/-- Mutating the layer at index `i` leaves every other index unchanged. -/
theorem setTagAt_get_ne (stack : List Layer) (i j : Nat) (k v : String)
    (hij : i ≠ j) : (setTagAt stack i k v).get? j = stack.get? j := by
  unfold setTagAt
  cases hg : stack.get? i with
  | none => rfl
  | some l => exact List.get?_set_ne _ stack hij

/-- Adding a breadcrumb at index `i` leaves every other index unchanged. -/
theorem addBreadcrumbAt_get_ne (stack : List Layer) (i j : Nat) (c : String)
    (hij : i ≠ j) : (addBreadcrumbAt stack i c).get? j = stack.get? j := by
  unfold addBreadcrumbAt
  cases hg : stack.get? i with
  | none => rfl
  | some l => exact List.get?_set_ne _ stack hij

/-- C7: `push_scope` without callback appends exactly one layer holding the
top client and an independent clone of the top scope (same tags and
breadcrumbs, distinct object); with `continue_trace` the clone's propagation
context is regenerated and distinct from the parent's, without it the parent's
propagation context is preserved; and mutations of the child layer never reach
the parent layer and vice versa. -/
theorem push_scope_clones_isolated (h : Hub) (top : Layer)
    (hl : h.stack.getLast? = some top) (ct : Bool)
    (hfresh : top.scope.freshBelow h.next_ref = true) :
    (h.push_scope ct).isSome = true ∧
    ∀ h1 mgr, h.push_scope ct = some (h1, mgr) → PushScopeSpec h top ct h1 mgr := by
  have hne : h.stack ≠ [] := by
    intro he
    rw [he] at hl
    simp at hl
  have hlen : 1 ≤ h.stack.length := List.length_pos.mpr hne
  have href : top.scope.ref < h.next_ref := by
    unfold Scope.freshBelow at hfresh
    simp only [Bool.and_eq_true, decide_eq_true_eq] at hfresh
    exact hfresh.1
  have hpc : ∀ pk, top.scope.propagation_context = some pk → pk < h.next_ref := by
    intro pk hk
    unfold Scope.freshBelow at hfresh
    rw [hk] at hfresh
    simp only [Bool.and_eq_true, decide_eq_true_eq] at hfresh
    exact hfresh.2
  constructor
  · unfold Hub.push_scope
    rw [hl]
    rfl
  · intro h1 mgr hp
    unfold Hub.push_scope at hp
    rw [hl] at hp
    simp only [Option.some.injEq, Prod.mk.injEq] at hp
    obtain ⟨hh1, hmgr⟩ := hp
    subst hh1
    subst hmgr
    have hij : h.stack.length ≠ h.stack.length - 1 := by omega
    have hji : h.stack.length - 1 ≠ h.stack.length := by omega
    cases ct with
    | false =>
      refine ⟨rfl, rfl, rfl, rfl, ?_, ?_, ?_, ?_, ?_, ?_, ?_⟩
      · show ¬ (top.scope.copy h.next_ref).ref = top.scope.ref
        dsimp only [Scope.copy]
        omega
      · intro hcon
        exact absurd hcon (by simp)
      · intro _
        rfl
      · intro k v
        exact setTagAt_get_ne _ _ _ k v hij
      · intro k v
        exact setTagAt_get_ne _ _ _ k v hji
      · intro c
        exact addBreadcrumbAt_get_ne _ _ _ c hij
      · intro c
        exact addBreadcrumbAt_get_ne _ _ _ c hji
    | true =>
      refine ⟨rfl, rfl, rfl, rfl, ?_, ?_, ?_, ?_, ?_, ?_, ?_⟩
      · show ¬ ((top.scope.copy h.next_ref).generate_propagation_context
          (h.next_ref + 1)).ref = top.scope.ref
        dsimp only [Scope.copy, Scope.generate_propagation_context]
        omega
      · intro _
        show ¬ ((top.scope.copy h.next_ref).generate_propagation_context
          (h.next_ref + 1)).propagation_context = top.scope.propagation_context
        dsimp only [Scope.copy, Scope.generate_propagation_context]
        cases htpc : top.scope.propagation_context with
        | none => simp
        | some pk =>
          have := hpc pk htpc
          simp only [ne_eq, Option.some.injEq]
          omega
      · intro hcon
        exact absurd hcon (by simp)
      · intro k v
        exact setTagAt_get_ne _ _ _ k v hij
      · intro k v
        exact setTagAt_get_ne _ _ _ k v hji
      · intro c
        exact addBreadcrumbAt_get_ne _ _ _ c hij
      · intro c
        exact addBreadcrumbAt_get_ne _ _ _ c hji

theorem push_scope_clones_isolated_witness :
    hub0.stack.getLast? = some layer0 ∧
    scope0.freshBelow hub0.next_ref = true ∧
    ((hub0.push_scope true).isSome = true ∧
      ∀ h1 mgr, hub0.push_scope true = some (h1, mgr) →
        PushScopeSpec hub0 layer0 true h1 mgr) :=
  ⟨rfl, by decide, push_scope_clones_isolated hub0 layer0 rfl true (by decide)⟩

/-- A guard release that returns keeps at least one layer, provided the guard
recorded a depth of at least 2 (as every guard from `push_scope` does). -/
theorem exit_stack_length (mgr : ScopeManager) (stack st : List Layer)
    (logs : List LogEntry) (he : mgr.exit stack = some (st, logs))
    (h2 : 2 ≤ mgr.original_len) (h1 : 1 ≤ stack.length) : 1 ≤ st.length := by
  unfold ScopeManager.exit at he
  by_cases hlt : stack.length < mgr.original_len
  · rw [if_pos hlt] at he
    simp only [Option.some.injEq, Prod.mk.injEq] at he
    exact he.1 ▸ h1
  · rw [if_neg hlt] at he
    cases hg : stack.get? (mgr.original_len - 1) with
    | none =>
      rw [hg] at he
      exact absurd he (by simp)
    | some layer =>
      rw [hg] at he
      simp only [Option.some.injEq, Prod.mk.injEq] at he
      obtain ⟨hst, -⟩ := he
      rw [← hst, List.length_take]
      push_neg at hlt
      omega

/-- Whatever the outcome tag, `pop_scope_unsafe` on a non-empty stack leaves
the hub holding the stack with its last layer dropped. -/
theorem pop_scope_unsafe_stack (h : Hub) (rv : Layer)
    (hg : h.stack.getLast? = some rv) :
    (match h.pop_scope_unsafe with
     | .ok _ h' => h'
     | .assertionError h' => h'
     | .indexError h' => h').stack = h.stack.dropLast := by
  unfold Hub.pop_scope_unsafe
  rw [hg]
  dsimp only
  by_cases hie : h.stack.dropLast.isEmpty = true
  · rw [if_pos hie]
  · rw [if_neg hie]

/-- One operation that satisfies its precondition keeps the stack non-empty. -/
theorem applyOp_depth (h : Hub) (op : HubOp) (h1 : 1 ≤ h.stack.length)
    (hpre : op.preOK h = true) : 1 ≤ (h.applyOp op).stack.length := by
  cases op with
  | push ct =>
    show 1 ≤ (match h.push_scope ct with
      | none => h
      | some (h1, _) => h1).stack.length
    cases hp : h.push_scope ct with
    | none => exact h1
    | some pr =>
      obtain ⟨hx, mgr⟩ := pr
      obtain ⟨hs, -, -⟩ := push_scope_stack h ct hx mgr hp
      dsimp only
      rw [hs]
      simp
  | guardExit mgr =>
    show 1 ≤ (match mgr.exit h.stack with
      | none => h
      | some (st, _) => { h with stack := st }).stack.length
    cases he : mgr.exit h.stack with
    | none => exact h1
    | some pr =>
      obtain ⟨st, logs⟩ := pr
      have hle := exit_stack_length mgr h.stack st logs he
        (by simpa [HubOp.preOK] using hpre) h1
      simpa using hle
  | popUnsafe =>
    have hpre2 : 2 ≤ h.stack.length := by simpa [HubOp.preOK] using hpre
    show 1 ≤ (match h.pop_scope_unsafe with
      | .ok _ h' => h'
      | .assertionError h' => h'
      | .indexError h' => h').stack.length
    cases hg : h.stack.getLast? with
    | none =>
      rw [List.getLast?_eq_none_iff] at hg
      rw [hg] at hpre2
      simp at hpre2
    | some rv =>
      rw [pop_scope_unsafe_stack h rv hg, List.length_dropLast]
      omega
  | bindClient c =>
    show 1 ≤ ((h.bind_client c).getD h).stack.length
    unfold Hub.bind_client
    cases hg : h.stack.getLast? with
    | none => exact h1
    | some top =>
      simp only [Option.getD_some]
      rw [List.length_append]
      simp
  | captureEvent t res =>
    show 1 ≤ (match h.capture_event t res with
      | none => h
      | some (_, h') => h').stack.length
    unfold Hub.capture_event
    cases hg : h.stack.getLast? with
    | none => exact h1
    | some top =>
      cases hc : top.client with
      | none =>
        simp only [hc]
        exact h1
      | some c =>
        simp only [hc]
        split
        · exact h1
        · exact h1
  | captureMessage res =>
    show 1 ≤ (match h.capture_message res with
      | none => h
      | some (_, h') => h').stack.length
    unfold Hub.capture_message
    cases hg : h.stack.getLast? with
    | none => exact h1
    | some top =>
      cases hc : top.client with
      | none =>
        simp only [hc]
        exact h1
      | some c =>
        simp only [hc]
        split
        · exact h1
        · exact h1
  | captureException res =>
    show 1 ≤ (match h.capture_exception res with
      | none => h
      | some (_, h') => h').stack.length
    unfold Hub.capture_exception
    cases hg : h.stack.getLast? with
    | none => exact h1
    | some top =>
      cases hc : top.client with
      | none =>
        simp only [hc]
        exact h1
      | some c =>
        simp only [hc]
        split
        · exact h1
        · exact h1

/-- C8 counterexample: `pop_scope_unsafe` on a one-layer hub performs the pop
before its own assertion fires, leaving the hub with an empty stack — so the
depth-at-least-one invariant does not hold for every operation sequence. -/
theorem stack_depth_invariant_counterexample :
    ¬ 1 ≤ (hub0.runOps [HubOp.popUnsafe]).stack.length := by decide

/-- C8 (amended): for every hub with a non-empty stack and every operation
sequence in which `pop_scope_unsafe` is only invoked at depth at least 2 and
guard releases use guards recording depth at least 2 (all guards produced by
`push_scope` do), the stack stays non-empty.  Intermediate states are
themselves `runOps` of valid prefixes, so the bound holds at all times. -/
theorem stack_depth_invariant (ops : List HubOp) (h : Hub)
    (h1 : 1 ≤ h.stack.length) (hv : h.opsValid ops = true) :
    1 ≤ (h.runOps ops).stack.length := by
  induction ops generalizing h with
  | nil => exact h1
  | cons op rest ih =>
    unfold Hub.opsValid at hv
    rw [Bool.and_eq_true] at hv
    exact ih (h.applyOp op) (applyOp_depth h op h1 hv.1) hv.2

theorem stack_depth_invariant_witness :
    1 ≤ hub0.stack.length ∧
    hub0.opsValid [HubOp.push true, HubOp.bindClient (some 3),
      HubOp.captureMessage (some "e1"), HubOp.popUnsafe] = true ∧
    1 ≤ (hub0.runOps [HubOp.push true, HubOp.bindClient (some 3),
      HubOp.captureMessage (some "e1"), HubOp.popUnsafe]).stack.length :=
  ⟨by decide, by decide,
   stack_depth_invariant [HubOp.push true, HubOp.bindClient (some 3),
     HubOp.captureMessage (some "e1"), HubOp.popUnsafe] hub0 (by decide) (by decide)⟩

/-- C9: under the `monitor` decorator an in-progress check-in is captured on
entry; a body that raises leads to a check-in with status `error` and the
elapsed duration, and the very same exception is re-raised to the caller; a
body that returns leads to a check-in with status `ok` and the elapsed
duration, and nothing is raised. -/
theorem monitor_checkin_protocol (slug : Option String) (cid : String)
    (body : Except ε α) (t0 t1 : Nat) :
    (monitor slug cid body t0 t1).2 = body ∧
    (monitor slug cid body t0 t1).1 =
      [{ monitor_slug := slug, check_in_id := none,
         status := MonitorStatus.in_progress, duration := none },
       { monitor_slug := slug, check_in_id := some cid,
         status := match body with
                   | .error _ => MonitorStatus.error
                   | .ok _ => MonitorStatus.ok,
         duration := some (t1 - t0) }] := by
  cases body with
  | error e => exact ⟨rfl, rfl⟩
  | ok a => exact ⟨rfl, rfl⟩

/-- Every scope on a hub's stack has an identity below the hub's counter when
the stack is well-formed. -/
theorem wf_ref_lt (h : Hub)
    (hwf : h.stack.all (fun l => l.scope.freshBelow h.next_ref) = true)
    (l : Layer) (hm : l ∈ h.stack) : l.scope.ref < h.next_ref := by
  rw [List.all_eq_true] at hwf
  have hl := hwf l hm
  unfold Scope.freshBelow at hl
  simp only [Bool.and_eq_true, decide_eq_true_eq] at hl
  exact hl.1

/-- C10: `configure_scope` with a callback invokes it with the hub's current
top scope exactly when a client is bound on the top layer and silently skips
the callback otherwise; without a callback and with no client bound, the
returned context manager yields a fresh empty scope that coincides with no
scope on the stack, so mutations through it never reach the hub's stack. -/
theorem configure_scope_callback_guarded (h : Hub) (top : Layer)
    (hl : h.stack.getLast? = some top) (ct : Bool)
    (hwf : h.stack.all (fun l => l.scope.freshBelow h.next_ref) = true) :
    ConfigureScopeSpec h top ct := by
  have htopref : top.scope.ref < h.next_ref :=
    wf_ref_lt h hwf top (List.mem_of_getLast?_eq_some hl)
  have hmemref : ∀ l ∈ h.stack, l.scope.ref < h.next_ref :=
    fun l hm => wf_ref_lt h hwf l hm
  unfold ConfigureScopeSpec Hub.configure_scope
  rw [hl]
  cases hcl : top.client with
  | none =>
    cases ct with
    | false =>
      refine ⟨?_, ?_, rfl, rfl⟩
      · intro out hout
        simp only [hcl, cond_true, cond_false, Option.isSome_none,
          Option.some.injEq] at hout
        subst hout
        exact ⟨fun hcon => absurd rfl hcon, fun _ => rfl⟩
      · intro out hout _
        simp only [hcl, cond_true, cond_false, Option.isSome_none,
          Option.some.injEq] at hout
        subst hout
        refine ⟨Scope.emptyScope h.next_ref, rfl, rfl, rfl, rfl, ?_⟩
        intro l hm
        have := hmemref l hm
        simp only [Scope.emptyScope, ne_eq]
        omega
    | true =>
      refine ⟨?_, ?_, rfl, rfl⟩
      · intro out hout
        simp only [hcl, cond_true, cond_false, Option.isSome_none,
          Option.some.injEq] at hout
        subst hout
        exact ⟨fun hcon => absurd rfl hcon, fun _ => rfl⟩
      · intro out hout _
        simp only [hcl, cond_true, cond_false, Option.isSome_none,
          Option.some.injEq] at hout
        subst hout
        refine ⟨Scope.emptyScope (h.next_ref + 1), rfl, rfl, rfl, rfl, ?_⟩
        intro l hm
        rcases List.mem_append.mp hm with hin | hin
        · have := hmemref l ((List.dropLast_sublist h.stack).mem hin)
          simp only [Scope.emptyScope, ne_eq]
          omega
        · rcases List.mem_singleton.mp hin with rfl
          simp only [Scope.emptyScope, Scope.generate_propagation_context, ne_eq]
          omega
  | some c =>
    cases ct with
    | false =>
      refine ⟨?_, ?_, rfl, rfl⟩
      · intro out hout
        simp only [hcl, cond_true, cond_false, Option.isSome_some,
          Option.some.injEq] at hout
        subst hout
        exact ⟨fun _ => ⟨top, hl, rfl⟩, fun hcon => absurd hcon (by simp)⟩
      · intro out hout hcon
        exact absurd hcon (by simp)
    | true =>
      refine ⟨?_, ?_, rfl, rfl⟩
      · intro out hout
        simp only [hcl, cond_true, cond_false, Option.isSome_some,
          Option.some.injEq] at hout
        subst hout
        refine ⟨fun _ => ⟨_, List.getLast?_concat _, rfl⟩,
          fun hcon => absurd hcon (by simp)⟩
      · intro out hout hcon
        exact absurd hcon (by simp)

theorem configure_scope_callback_guarded_witness :
    hub0.stack.getLast? = some layer0 ∧
    hub0.stack.all (fun l => l.scope.freshBelow hub0.next_ref) = true ∧
    ConfigureScopeSpec hub0 layer0 true :=
  ⟨rfl, by decide, configure_scope_callback_guarded hub0 layer0 rfl true (by decide)⟩
